import Mathlib

/-!
Verification of the command-to-action pipeline of the workflow-automation
backend (`app.py`).

Texts handled by the backend (the model reply, the JSON it contains) are
embedded as `List Char`.  The pieces of the Python runtime the code leans on
(`str.strip`, `str.startswith`, slicing, `json.loads`, dict lookup,
truthiness) are given executable Lean models; everything else is translated
from the source of `app.py` function by function.  External collaborators
(the Gemini completion API, SQLite, SMTP, the Slack webhook) are modelled as
oracle outcomes supplied to the functions that call them, mirroring exactly
which exceptions can reach which `except` clause in the source.
-/

set_option maxHeartbeats 1000000

/-! ## Character classes and Python `str.strip` -/

/-- The whitespace characters recognised by Python's `str.strip()`
(the `str.isspace` set: ASCII whitespace, the C1 spacing controls and the
Unicode space separators). -/
def pyWsChars : List Char :=
  [' ', '\t', '\n', '\r', '\x0b', '\x0c',
   '\x1c', '\x1d', '\x1e', '\x1f', '\x85', '\xa0',
   '\u1680', '\u2000', '\u2001', '\u2002', '\u2003', '\u2004', '\u2005',
   '\u2006', '\u2007', '\u2008', '\u2009', '\u200a', '\u2028', '\u2029',
   '\u202f', '\u205f', '\u3000']

def isPyWs (c : Char) : Bool := pyWsChars.contains c

/-- JSON whitespace as skipped by Python's `json.loads`
(only space, tab, newline, carriage return). -/
def isJsonWs (c : Char) : Bool := c = ' ' || c = '\t' || c = '\n' || c = '\r'

/-- Model of Python `str.strip()`: remove `isPyWs` characters from both ends. -/
def pyStrip (s : List Char) : List Char :=
  ((s.dropWhile isPyWs).reverse.dropWhile isPyWs).reverse

/-! ## JSON values, as decoded by `json.loads`

Number and string payloads are kept as their raw source tokens: the claims
under verification compare parses of identical texts, so token-level equality
is what is needed, and it implies equality of the decoded Python values. -/

inductive Json where
  | null
  | bool (b : Bool)
  | num (tok : List Char)
  | str (tok : List Char)
  | arr (elems : List Json)
  | obj (members : List (List Char × Json))

/-! ## The JSON text decoder (model of `json.loads`)

The decoder follows CPython's pure-Python `json` scanner: skip JSON
whitespace only at the token positions the scanner skips it, strings scan to
the first unescaped quote, numbers munch the maximal run of number
characters (sign, digits, dot, exponent letters), arrays and objects demand
`,`-separated items terminated by `]` / `}` with no trailing comma, and the
top level requires the remainder after one value to be whitespace.  The
model accepts a superset of `json.loads` (escape sequences and number tokens
are not shape-checked) but consumes exactly the same characters on every
text both accept; no claim below depends on the difference.  Structure
recursion is fuelled; `jsonParse` supplies fuel `length + 1`, which the
re-parse lemmas below show is always enough. -/

def skipWs (cs : List Char) : List Char := cs.dropWhile isJsonWs

def isNumChar (c : Char) : Bool :=
  c.isDigit || c = '-' || c = '+' || c = '.' || c = 'e' || c = 'E'

def startsNum (c : Char) : Bool := c.isDigit || c = '-'

/-- Scan a string body (the part after an opening quote) up to and including
the closing quote; returns the raw contents and the rest of the input. -/
def parseStrBody : List Char → Option (List Char × List Char)
  | [] => none
  | c :: cs =>
    if c = '"' then some ([], cs)
    else if c = '\\' then
      match cs with
      | [] => none
      | d :: cs' =>
        match parseStrBody cs' with
        | some (s, r) => some (c :: d :: s, r)
        | none => none
    else
      match parseStrBody cs with
      | some (s, r) => some (c :: s, r)
      | none => none

mutual

def parseVal : Nat → List Char → Option (Json × List Char)
  | 0, _ => none
  | fuel + 1, cs =>
    match cs with
    | 'n' :: 'u' :: 'l' :: 'l' :: r => some (.null, r)
    | 't' :: 'r' :: 'u' :: 'e' :: r => some (.bool true, r)
    | 'f' :: 'a' :: 'l' :: 's' :: 'e' :: r => some (.bool false, r)
    | '"' :: r =>
      match parseStrBody r with
      | some (s, r') => some (.str s, r')
      | none => none
    | '[' :: r =>
      match skipWs r with
      | ']' :: r' => some (.arr [], r')
      | r1 =>
        match parseElems fuel r1 with
        | some (vs, r') => some (.arr vs, r')
        | none => none
    | '\x7b' :: r =>
      match skipWs r with
      | '\x7d' :: r' => some (.obj [], r')
      | r1 =>
        match parseMembers fuel r1 with
        | some (ms, r') => some (.obj ms, r')
        | none => none
    | c :: r =>
      if startsNum c then
        some (.num ((c :: r).takeWhile isNumChar), (c :: r).dropWhile isNumChar)
      else none
    | [] => none

def parseElems : Nat → List Char → Option (List Json × List Char)
  | 0, _ => none
  | fuel + 1, cs =>
    match parseVal fuel cs with
    | some (v, r) =>
      match skipWs r with
      | ',' :: r2 =>
        match parseElems fuel (skipWs r2) with
        | some (vs, r3) => some (v :: vs, r3)
        | none => none
      | ']' :: r2 => some ([v], r2)
      | _ => none
    | none => none

def parseMembers : Nat → List Char → Option (List (List Char × Json) × List Char)
  | 0, _ => none
  | fuel + 1, cs =>
    match cs with
    | '"' :: r =>
      match parseStrBody r with
      | some (k, r1) =>
        match skipWs r1 with
        | ':' :: r2 =>
          match parseVal fuel (skipWs r2) with
          | some (v, r3) =>
            match skipWs r3 with
            | ',' :: r4 =>
              match parseMembers fuel (skipWs r4) with
              | some (ms, r5) => some ((k, v) :: ms, r5)
              | none => none
            | '\x7d' :: r4 => some ([(k, v)], r4)
            | _ => none
          | none => none
        | _ => none
      | none => none
    | _ => none

end

/-- Model of `json.loads`: skip leading whitespace, decode one value, demand
that only whitespace remains. -/
def jsonParse (cs : List Char) : Option Json :=
  match parseVal (cs.length + 1) (skipWs cs) with
  | some (v, rest) => if skipWs rest = [] then some v else none
  | none => none

/-! ## Reply normalization (app.py lines 388-395)

`gemini_raw_response = response.text.strip()` is modelled by `pyStrip`;
the markdown-fence removal `json_string[len("```json"):-len("```")].strip()`
by `stripFence`. -/

def fenceTag : List Char := "```json".toList

def closeFence : List Char := "```".toList

/-- The fence-removal step: if the (already stripped) reply starts with
the exact prefix ` ```json `, slice off `len("```json")` characters at the
front and `len("```")` characters at the back (Python `s[7:-3]`) and strip
the remainder; otherwise leave the reply untouched. -/
def stripFence (s : List Char) : List Char :=
  if fenceTag.isPrefixOf s then
    pyStrip ((s.drop fenceTag.length).take ((s.length - closeFence.length) - fenceTag.length))
  else s

/-! ## Python truthiness and dict lookup -/

/-- Truthiness of an optional string (Python `if not x` on a value that is
either absent/None or a `str`): absent and the empty string are falsy. -/
def pyTruthyStr : Option String → Bool
  | none => false
  | some s => s != ""

/-- Truthiness of a decoded JSON value under Python rules: `None`, `False`,
numeric zero, and empty strings/lists/dicts are falsy. -/
def jsonTruthy : Json → Bool
  | .null => false
  | .bool b => b
  | .num tok =>
    !((tok.takeWhile (fun c => !(c = 'e' || c = 'E'))).all (fun c => !c.isDigit || c = '0'))
  | .str tok => !tok.isEmpty
  | .arr es => !es.isEmpty
  | .obj ms => !ms.isEmpty

def pyTruthyOptJson : Option Json → Bool
  | none => false
  | some v => jsonTruthy v

/-- Python `dict` lookup on the decoded members of a JSON object
(`json.loads` builds the dict pairwise, so a repeated key keeps its last
value). -/
def dictGet (ms : List (List Char × Json)) (k : List Char) : Option Json :=
  ms.foldl (fun acc p => if p.1 = k then some p.2 else acc) none

def dictGetJson (v : Json) (k : List Char) : Option Json :=
  match v with
  | .obj ms => dictGet ms k
  | _ => none

def isObj : Json → Bool
  | .obj _ => true
  | _ => false

def isList : Json → Bool
  | .arr _ => true
  | _ => false

/-- Python `str()` of a decoded JSON value, as interpolated into result
messages.  Exact for the cases any verified claim inspects (strings, `None`,
booleans); the textual repr of numbers and containers is not modelled
bit-for-bit — it only ever appears inside free-text messages on branches no
claim constrains. -/
def pyStr : Json → String
  | .null => "None"
  | .bool true => "True"
  | .bool false => "False"
  | .num tok => String.mk tok
  | .str tok => String.mk tok
  | .arr _ => "[...]"
  | .obj _ => "\x7b...\x7d"

def pyStrOfActionType : Option Json → String
  | none => "None"
  | some j => pyStr j

/-! ## The Action Dispatcher (app.py lines 125-211) -/

/-- The environment-provided configuration the handlers read
(`SENDER_EMAIL`, `SENDER_EMAIL_PASSWORD`, `SLACK_WEBHOOK_URL`). -/
structure Config where
  senderEmail : Option String
  senderEmailPassword : Option String
  slackWebhookUrl : Option String

/-- Outcome of the external calls one action may perform: `.ok` when the
SMTP relay / webhook POST succeeds, `.error e` when it raises (exception
text `e`).  The email handler catches every exception around its SMTP
block; the Slack handler catches the `requests` exception family, which is
what `requests.post`/`raise_for_status` raise. -/
structure ExtEnv where
  smtpResult : Except String Unit
  slackResult : Except String Unit

/-- One action record `{type, details}` as handed to the dispatcher.
`type` is whatever `action.get("type")` returns (absent key ↦ `none`);
`details` is the member list of the `details` mapping (`action.get("details", {})`
— an absent key yields the empty dict).  Dict-shaped `details` is the
well-formedness condition of the spec's data model; a non-dict `details` on
an email/slack action makes the handler's `.get` raise, which the endpoint
model routes through `toActionSpec` below. -/
structure ActionSpec where
  type : Option Json
  details : List (List Char × Json)

/-- One `{action_type, success, message}` result record. -/
structure ActionResult where
  action_type : Option Json
  success : Bool
  message : String

/-- Python `action_type == "some string"` (true only when the decoded value
is that exact string). -/
def isTypeStr (t : Option Json) (s : String) : Bool :=
  match t with
  | some (.str tok) => tok = s.toList
  | _ => false

/-- `execute_send_email_action` (lines 125-156).  `subject`/`body` defaults
(lines 136-137) only feed the MIME message body, which is not observable in
the returned pair, so they are not tracked. -/
def execute_send_email_action (cfg : Config) (ext : ExtEnv)
    (action_details : List (List Char × Json)) : Bool × String :=
  let to_email := dictGet action_details "recipient".toList
  if !(pyTruthyStr cfg.senderEmail && pyTruthyStr cfg.senderEmailPassword
        && pyTruthyOptJson to_email) then
    (false, "Email sender credentials or recipient missing/invalid.")
  else
    match ext.smtpResult with
    | .ok _ => (true, "Email sent successfully to " ++ pyStrOfActionType to_email ++ ".")
    | .error e => (false, "Failed to send email: " ++ e)

/-- `execute_send_slack_notification_action` (lines 158-186).  The optional
`channel` override only alters the webhook payload, not the returned pair. -/
def execute_send_slack_notification_action (cfg : Config) (ext : ExtEnv)
    (action_details : List (List Char × Json)) : Bool × String :=
  let message := dictGet action_details "message".toList
  if !(pyTruthyStr cfg.slackWebhookUrl) then
    (false, "Slack Webhook URL is not configured in .env.")
  else if !(pyTruthyOptJson message) then
    (false, "No message provided for Slack notification.")
  else
    match ext.slackResult with
    | .ok _ => (true, "Slack notification sent successfully.")
    | .error e => (false, "Failed to send Slack notification: " ++ e)

/-- The body of the `for action in actions` loop of `execute_actions`
(lines 199-210): resolve the `type` tag and append one result record. -/
def dispatchOne (cfg : Config) (ext : ExtEnv) (action : ActionSpec) : ActionResult :=
  if isTypeStr action.type "send_email" then
    let r := execute_send_email_action cfg ext action.details
    ⟨action.type, r.1, r.2⟩
  else if isTypeStr action.type "send_slack_notification" then
    let r := execute_send_slack_notification_action cfg ext action.details
    ⟨action.type, r.1, r.2⟩
  else
    ⟨action.type, false,
      "Unknown or unimplemented action type: " ++ pyStrOfActionType action.type⟩

/-- The dispatcher's input: a sequence of action records, or (as Gemini
sometimes returns) a single bare record. -/
inductive ActionsInput where
  | list (elems : List ActionSpec)
  | single (a : ActionSpec)

/-- Lines 195-197: a non-list input is wrapped into a one-element list. -/
def normalizeActions : ActionsInput → List ActionSpec
  | .list es => es
  | .single a => [a]

/-- The `results = []; for action in actions: ... results.append(...)` loop.
`oracle i` is the outcome of the external call made by the `i`-th action. -/
def dispatchLoop (cfg : Config) (oracle : Nat → ExtEnv) :
    List ActionSpec → Nat → List ActionResult → List ActionResult
  | [], _, results => results
  | a :: rest, i, results =>
    dispatchLoop cfg oracle rest (i + 1) (results ++ [dispatchOne cfg (oracle i) a])

/-- `execute_actions` (lines 189-211). -/
def execute_actions (cfg : Config) (oracle : Nat → ExtEnv) (input : ActionsInput) :
    List ActionResult :=
  dispatchLoop cfg oracle (normalizeActions input) 0 []

/-! ## Persistence (app.py lines 97-113) -/

/-- One row of the `workflows` table, projected to the columns the code
writes (the surrogate key, `status` default and timestamp are supplied by
the storage engine and never read back). -/
structure WorkflowRecord where
  command : String
  parsed : Json

/-- Outcome of the SQLite interaction inside one `save_workflow_to_db`
call.  `connectFail`: `sqlite3.connect` (line 101, before the `try`) raises,
so the exception escapes the function.  `insertFail`: the
`execute`/`commit` inside the `try` raises; the `except` clause catches it,
prints, and the function returns normally without having inserted. -/
inductive DbOutcome where
  | ok
  | insertFail (e : String)
  | connectFail (e : String)

/-- `save_workflow_to_db` (lines 97-113) over an explicit store:
`.error e` models an exception escaping the function, `.ok store'` a normal
return with the resulting store contents. -/
def save_workflow_to_db (db : DbOutcome) (store : List WorkflowRecord)
    (command : String) (parsed_workflow : Json) : Except String (List WorkflowRecord) :=
  match db with
  | .ok => .ok (store ++ [⟨command, parsed_workflow⟩])
  | .insertFail _ => .ok store
  | .connectFail e => .error e

/-! ## The `/automate` endpoint (app.py lines 275-484) -/

/-- Outcome of `model.generate_content(prompt)` followed by reading
`response.text`: `.ok text` delivers the reply text; the other constructors
are the exception families the endpoint catches (safety block, a
`GoogleAPICallError` carrying an HTTP-like code, and any other exception
raised before a reply text was obtained). -/
inductive GeminiOutcome where
  | ok (text : List Char)
  | blocked (feedback : String)
  | apiError (code : Nat) (detail : String)
  | otherError (detail : String)

/-- The JSON body + HTTP status of a response from `/automate`.  A field
holds `none` when the corresponding key is absent from the body.  The
free-text `details`/`status_code` keys some error bodies add are not
modelled; no claim mentions them. -/
structure HttpResponse where
  status : Nat
  error : Option String := none
  gemini_raw : Option (List Char) := none
  message : Option String := none
  original_command : Option String := none
  parsed_workflow : Option Json := none
  execution_results : Option (List ActionResult) := none

/-- Everything outside the process that one `/automate` request consults. -/
structure AutomateEnv where
  gemini : GeminiOutcome
  db : DbOutcome
  cfg : Config
  oracle : Nat → ExtEnv

/-- Result of one request: the response, whether `model.generate_content`
was reached, whether `execute_actions` was invoked, and the final store. -/
structure AutomateResult where
  resp : HttpResponse
  llmCalled : Bool
  dispatched : Bool
  store : List WorkflowRecord

/-- Python `type(...)` display for the `ValueError` message of lines
401-403. -/
def pyTypeName : Json → String
  | .null => "<class \x27NoneType\x27>"
  | .bool _ => "<class \x27bool\x27>"
  | .num tok =>
    if tok.contains '.' || tok.contains 'e' || tok.contains 'E' then
      "<class \x27float\x27>"
    else "<class \x27int\x27>"
  | .str _ => "<class \x27str\x27>"
  | .arr _ => "<class \x27list\x27>"
  | .obj _ => "<class \x27dict\x27>"

/-- The message of the `ValueError` raised at lines 402-403. -/
def valueErrorMsg (v : Json) (raw : List Char) : String :=
  "Gemini response was not a dictionary or list of dictionaries. Received type: "
    ++ pyTypeName v ++ ", Raw content: \x27" ++ String.mk raw ++ "\x27"

/-- Lines 397-403: a non-empty list yields its first element (rest
discarded); anything that is then not a dict raises the `ValueError`
(note an empty list falls through the `len > 0` guard into the
not-a-dictionary branch). -/
def normalizeParsed (raw : List Char) (v : Json) : Except String Json :=
  match v with
  | .arr (x :: _) => .ok x
  | .obj ms => .ok (.obj ms)
  | other => .error (valueErrorMsg other raw)

/-- Convert one element of `parsed_workflow["actions"]` into the record the
dispatcher loop reads.  `none` models the `AttributeError` that
`action.get` (line 200) raises on a non-dict element, or that the
email/slack handler's `details.get` raises on a non-dict `details`; such an
exception escapes `execute_actions` into the endpoint's outer `except`.
A non-dict `details` on an unknown-type action is never touched by the
code, so it converts to the empty dict, which is observationally equal. -/
def toActionSpec (v : Json) : Option ActionSpec :=
  match v with
  | .obj ms =>
    let t := dictGet ms "type".toList
    match dictGet ms "details".toList with
    | none => some ⟨t, []⟩
    | some (.obj dms) => some ⟨t, dms⟩
    | some _ =>
      if isTypeStr t "send_email" || isTypeStr t "send_slack_notification" then none
      else some ⟨t, []⟩
  | _ => none

/-- The interpretation phase in isolation: what parsed workflow (if any)
the `try` block of lines 385-408 hands to the rest of the request.  `none`
covers every interpretation failure (upstream error, JSON decode failure,
malformed shape). -/
def interpParsed (g : GeminiOutcome) : Option Json :=
  match g with
  | .ok text =>
    match jsonParse (stripFence (pyStrip text)) with
    | some pw0 =>
      match normalizeParsed (pyStrip text) pw0 with
      | .ok pw => some pw
      | .error _ => none
    | none => none
  | _ => none

/-- `automate_workflow` (lines 275-484), the `/automate` handler. -/
def automate_workflow (env : AutomateEnv) (store : List WorkflowRecord)
    (command : Option String) : AutomateResult :=
  if !(pyTruthyStr command) then
    ⟨{ status := 400,
       error := some "No \x27command\x27 provided in the request body. Please send your automation request here." },
     false, false, store⟩
  else
    let cmd := command.getD ""
    match env.gemini with
    | .blocked feedback =>
      ⟨{ status := 400,
         error := some ("Prompt blocked by safety settings. Details: " ++ feedback),
         gemini_raw := some [] }, true, false, store⟩
    | .apiError code detail =>
      ⟨{ status := code,
         error := some (if code = 429 then
             "Gemini API rate limit exceeded. Please try again later."
           else if code = 404 then
             "Gemini API Error: Model not found or unavailable. This often indicates a quota limit on the free tier or an incorrect model name."
           else "Gemini API Error: " ++ detail),
         gemini_raw := some [] }, true, false, store⟩
    | .otherError _ =>
      ⟨{ status := 500,
         error := some "An unexpected error occurred during AI processing.",
         gemini_raw := some [] }, true, false, store⟩
    | .ok text =>
      let raw := pyStrip text
      match jsonParse (stripFence raw) with
      | none =>
        ⟨{ status := 500,
           error := some "AI could not generate a valid workflow plan (JSON parse error). Please refine your command.",
           gemini_raw := some raw }, true, false, store⟩
      | some pw0 =>
        match normalizeParsed raw pw0 with
        | .error msg =>
          ⟨{ status := 400, error := some msg, gemini_raw := some raw }, true, false, store⟩
        | .ok pw =>
          if jsonTruthy pw && isObj pw then
            match save_workflow_to_db env.db store cmd pw with
            | .error _ =>
              ⟨{ status := 500, error := some "Failed to save or execute workflow." },
               true, false, store⟩
            | .ok store' =>
              match dictGetJson pw "actions".toList with
              | some (.arr elts) =>
                match elts.mapM toActionSpec with
                | some specs =>
                  ⟨{ status := 200,
                     message := some "Workflow parsed, saved, and executed!",
                     original_command := some cmd,
                     parsed_workflow := some pw,
                     execution_results := some (execute_actions env.cfg env.oracle (.list specs)) },
                   true, true, store'⟩
                | none =>
                  ⟨{ status := 500, error := some "Failed to save or execute workflow." },
                   true, true, store'⟩
              | _ =>
                ⟨{ status := 200,
                   message := some "Workflow parsed, saved, and executed!",
                   original_command := some cmd,
                   parsed_workflow := some pw,
                   execution_results := some [⟨some (.str "None".toList), true,
                     "No specific actions to execute."⟩] },
                 true, false, store'⟩
          else
            ⟨{ status := 500,
               error := some "Gemini could not generate a valid structured workflow." },
             true, false, store⟩

/-! ## Auxiliary predicates for the decoder lemmas, and concrete scenarios -/

/-- Characters that can begin a JSON value token. -/
def valStart (c : Char) : Bool :=
  c = 'n' || c = 't' || c = 'f' || c = '"' || c = '[' || c = '\x7b' || startsNum c

/-- A continuation in front of which a decoded value re-parses to the same
token: empty, or not starting with a number character (so a number token
cannot be extended into it). -/
def safeTail : List Char → Bool
  | [] => true
  | c :: _ => !isNumChar c

/-- Configuration with no mail credentials and no webhook. -/
def cfgNone : Config := ⟨none, none, none⟩

/-- External calls that all succeed. -/
def oracleOk : Nat → ExtEnv := fun _ => ⟨.ok (), .ok ()⟩

/-- Scenario: Gemini replies `{"actions": []}`, the SQLite insert fails. -/
def envInsFail : AutomateEnv :=
  ⟨.ok "\x7b\"actions\": []\x7d".toList, .insertFail "disk I/O error", cfgNone, oracleOk⟩

/-- Scenario: Gemini replies `{"actions": []}`, `sqlite3.connect` fails. -/
def envConnFail : AutomateEnv :=
  ⟨.ok "\x7b\"actions\": []\x7d".toList, .connectFail "unable to open database file",
   cfgNone, oracleOk⟩

/-- Scenario: Gemini replies `{}` (an empty mapping), everything else fine. -/
def envEmptyObj : AutomateEnv := ⟨.ok "\x7b\x7d".toList, .ok, cfgNone, oracleOk⟩

/-- Scenario: Gemini replies `[]` (an empty list). -/
def envEmptyList : AutomateEnv := ⟨.ok "[]".toList, .ok, cfgNone, oracleOk⟩

/-- Scenario: Gemini replies `3` (a bare number). -/
def envBareNum : AutomateEnv := ⟨.ok "3".toList, .ok, cfgNone, oracleOk⟩

/-- Scenario: the prompt is blocked by safety settings. -/
def envBlocked : AutomateEnv := ⟨.blocked "safety feedback", .ok, cfgNone, oracleOk⟩

/-- What consuming one JSON value guarantees: the input splits into a
consumed prefix and the rest; the prefix starts with a value-start
character and ends with a character Python's `strip` leaves alone, and it
re-parses to the same value in front of any continuation that cannot extend
a number token, under any fuel above its length. -/
def ValSplit (v : Json) (cs rest : List Char) : Prop :=
  ∃ pre, cs = pre ++ rest
    ∧ (∃ c t, pre = c :: t ∧ valStart c = true)
    ∧ (∃ d ds, pre.reverse = d :: ds ∧ isPyWs d = false)
    ∧ ∀ σ m, safeTail σ = true → pre.length + 1 ≤ m →
        parseVal m (pre ++ σ) = some (v, σ)

/-- The analogue of `ValSplit` for an array-element tail (always ends with
`]`). -/
def ElemsSplit (vs : List Json) (cs rest : List Char) : Prop :=
  ∃ pre, cs = pre ++ rest
    ∧ (∃ c t, pre = c :: t ∧ valStart c = true)
    ∧ (∃ ds, pre.reverse = ']' :: ds)
    ∧ ∀ σ m, safeTail σ = true → pre.length + 1 ≤ m →
        parseElems m (pre ++ σ) = some (vs, σ)

/-- The analogue of `ValSplit` for an object-member tail (starts with `"`,
ends with the closing brace). -/
def MembersSplit (ms : List (List Char × Json)) (cs rest : List Char) : Prop :=
  ∃ pre, cs = pre ++ rest
    ∧ (∃ t, pre = '"' :: t)
    ∧ (∃ ds, pre.reverse = '\x7d' :: ds)
    ∧ ∀ σ m, safeTail σ = true → pre.length + 1 ≤ m →
        parseMembers m (pre ++ σ) = some (ms, σ)

/-! ## General list helpers -/

theorem dropWhile_append_all {α : Type} {p : α → Bool} {a : List α} (b : List α)
    (h : ∀ x ∈ a, p x = true) :
    List.dropWhile p (a ++ b) = List.dropWhile p b := by
  induction a with
  | nil => rfl
  | cons x xs ih =>
    have hx : p x = true := h x (List.mem_cons_self _ _)
    simp only [List.cons_append, List.dropWhile_cons, hx, if_true]
    exact ih fun y hy => h y (List.mem_cons_of_mem _ hy)

theorem dropWhile_cons_neg {α : Type} {p : α → Bool} {c : α} (l : List α)
    (h : p c = false) : List.dropWhile p (c :: l) = c :: l := by
  simp [List.dropWhile_cons, h]

theorem skipWs_ws_cons {w : List Char} {c : Char} (l : List Char)
    (hw : ∀ x ∈ w, isJsonWs x = true) (hc : isJsonWs c = false) :
    skipWs (w ++ c :: l) = c :: l := by
  unfold skipWs
  rw [dropWhile_append_all _ hw, dropWhile_cons_neg _ hc]

theorem pyStrip_decompose {a m b : List Char}
    (ha : ∀ x ∈ a, isPyWs x = true) (hb : ∀ x ∈ b, isPyWs x = true)
    (hhead : ∃ c t, m = c :: t ∧ isPyWs c = false)
    (hlast : ∃ d s, m.reverse = d :: s ∧ isPyWs d = false) :
    pyStrip (a ++ m ++ b) = m := by
  obtain ⟨c, t, rfl, hc⟩ := hhead
  obtain ⟨d, s, hrev, hd⟩ := hlast
  unfold pyStrip
  rw [List.append_assoc, dropWhile_append_all _ ha, List.cons_append,
    dropWhile_cons_neg _ hc, ← List.cons_append, List.reverse_append,
    dropWhile_append_all _ (fun x hx => hb x (List.mem_reverse.mp hx)), hrev,
    dropWhile_cons_neg _ hd, ← hrev, List.reverse_reverse]

/-! ## Character-class facts -/

theorem isJsonWs_isPyWs {c : Char} (h : isJsonWs c = true) : isPyWs c = true := by
  simp only [isJsonWs, Bool.or_eq_true, decide_eq_true_eq] at h
  rcases h with ((rfl | rfl) | rfl) | rfl <;> decide

theorem isJsonWs_not_numChar {c : Char} (h : isJsonWs c = true) : isNumChar c = false := by
  simp only [isJsonWs, Bool.or_eq_true, decide_eq_true_eq] at h
  rcases h with ((rfl | rfl) | rfl) | rfl <;> decide

theorem isPyWs_char_cases {c : Char} (h : isPyWs c = true) :
    c ∈ pyWsChars := by
  exact List.mem_of_elem_eq_true h

theorem isNumChar_not_pyWs {c : Char} (h : isNumChar c = true) : isPyWs c = false := by
  cases hp : isPyWs c with
  | false => rfl
  | true =>
    exfalso
    have := isPyWs_char_cases hp
    simp only [pyWsChars, List.mem_cons, List.not_mem_nil, or_false] at this
    rcases this with rfl|rfl|rfl|rfl|rfl|rfl|rfl|rfl|rfl|rfl|rfl|rfl|rfl|rfl|rfl|rfl|rfl|rfl|rfl|rfl|rfl|rfl|rfl|rfl|rfl|rfl|rfl|rfl|rfl <;>
      exact absurd h (by decide)

theorem valStart_not_pyWs {c : Char} (h : valStart c = true) : isPyWs c = false := by
  cases hp : isPyWs c with
  | false => rfl
  | true =>
    exfalso
    have := isPyWs_char_cases hp
    simp only [pyWsChars, List.mem_cons, List.not_mem_nil, or_false] at this
    rcases this with rfl|rfl|rfl|rfl|rfl|rfl|rfl|rfl|rfl|rfl|rfl|rfl|rfl|rfl|rfl|rfl|rfl|rfl|rfl|rfl|rfl|rfl|rfl|rfl|rfl|rfl|rfl|rfl|rfl <;>
      exact absurd h (by decide)

theorem valStart_not_jsonWs {c : Char} (h : valStart c = true) : isJsonWs c = false := by
  cases hj : isJsonWs c with
  | false => rfl
  | true => exact absurd (isJsonWs_isPyWs hj) (by simp [valStart_not_pyWs h])

/-! ## C9: unconditional tail cut by the fence stripper -/

/-- C9: for every reply starting with the exact prefix ` ```json `, the
stripping step removes the last three characters of the remainder
unconditionally — even without a closing fence — so the tail of the JSON
content is cut off before parsing; any reply without that exact prefix is
passed through unchanged; and concretely, the fence-opened but unclosed
reply ` ```json{"a": 1} ` parses to nothing while its JSON content parses
fine. -/
theorem C9_fence_strip_cuts_tail :
    (∀ t : List Char, stripFence (fenceTag ++ t) = pyStrip (t.take (t.length - 3)))
    ∧ (∀ s : List Char, fenceTag.isPrefixOf s = false → stripFence s = s)
    ∧ jsonParse (stripFence (pyStrip ("```json\x7b\"a\": 1\x7d".toList))) = none
    ∧ jsonParse ("\x7b\"a\": 1\x7d".toList) = some (.obj [("a".toList, .num ['1'])]) := by
  refine ⟨?_, ?_, rfl, rfl⟩
  · intro t
    have hpre : fenceTag.isPrefixOf (fenceTag ++ t) = true := by
      rw [List.isPrefixOf_iff_prefix]; exact List.prefix_append _ _
    have h7 : fenceTag.length = 7 := rfl
    have h3 : closeFence.length = 3 := rfl
    have hlen : (fenceTag ++ t).length - closeFence.length - fenceTag.length
        = t.length - 3 := by
      rw [List.length_append, h7, h3]; omega
    simp only [stripFence, hpre, if_true, List.drop_left, hlen]
  · intro s h
    simp [stripFence, h]

/-- Concrete instance of `C9_fence_strip_cuts_tail`: a reply with a bare
fence (no `json` tag) is not stripped. -/
theorem C9_witness : stripFence ("```\x7b\x7d```".toList) = "```\x7b\x7d```".toList :=
  C9_fence_strip_cuts_tail.2.1 _ rfl

/-! ## C2: shape of the dispatcher's output -/

theorem dispatchLoop_eq (cfg : Config) (oracle : Nat → ExtEnv) :
    ∀ (as : List ActionSpec) (i : Nat) (acc : List ActionResult),
      dispatchLoop cfg oracle as i acc
        = acc ++ as.mapIdx (fun j a => dispatchOne cfg (oracle (i + j)) a) := by
  intro as
  induction as with
  | nil => intro i acc; simp [dispatchLoop]
  | cons a rest ih =>
    intro i acc
    have hf : (fun j (b : ActionSpec) => dispatchOne cfg (oracle (i + 1 + j)) b)
        = fun j => (fun j (b : ActionSpec) => dispatchOne cfg (oracle (i + j)) b) (j + 1) := by
      funext j b
      have hji : i + 1 + j = i + (j + 1) := by omega
      rw [hji]
    calc dispatchLoop cfg oracle (a :: rest) i acc
        = dispatchLoop cfg oracle rest (i + 1) (acc ++ [dispatchOne cfg (oracle i) a]) := rfl
      _ = (acc ++ [dispatchOne cfg (oracle i) a])
            ++ rest.mapIdx (fun j b => dispatchOne cfg (oracle (i + 1 + j)) b) := ih _ _
      _ = acc ++ (dispatchOne cfg (oracle (i + 0)) a
            :: rest.mapIdx (fun j => (fun j (b : ActionSpec) =>
                 dispatchOne cfg (oracle (i + j)) b) (j + 1))) := by
          rw [hf]; simp [List.append_assoc]
      _ = acc ++ (a :: rest).mapIdx (fun j b => dispatchOne cfg (oracle (i + j)) b) := by
          rw [List.mapIdx_cons]

/-- C2: for every input — a sequence of action records or a single record
(treated as a one-element sequence) — `execute_actions` returns normally
and its output is exactly one result per input action, in input order, each
produced by the corresponding handler run (so a handler failure becomes a
`success := false` record rather than an exception); the empty sequence
yields the empty output. -/
theorem C2_dispatch_one_result_per_action :
    ∀ (cfg : Config) (oracle : Nat → ExtEnv) (input : ActionsInput),
      execute_actions cfg oracle input
        = (normalizeActions input).mapIdx (fun i a => dispatchOne cfg (oracle i) a)
      ∧ (execute_actions cfg oracle input).length = (normalizeActions input).length
      ∧ execute_actions cfg oracle (.list []) = [] := by
  intro cfg oracle input
  have h := dispatchLoop_eq cfg oracle (normalizeActions input) 0 []
  simp only [Nat.zero_add, List.nil_append] at h
  refine ⟨h, ?_, rfl⟩
  rw [execute_actions, h, List.length_mapIdx]

/-! ## C6: unknown action types -/

/-- C6: dispatching the single (non-sequence) record `{type: "totally_unknown"}`
yields exactly one result, `success := false` with message
`"Unknown or unimplemented action type: totally_unknown"`; and in general
any action whose `type` is a string other than `send_email` and
`send_slack_notification` produces a failure result with that message
pattern. -/
theorem C6_unknown_action_type :
    (∀ (cfg : Config) (oracle : Nat → ExtEnv),
      execute_actions cfg oracle (.single ⟨some (.str "totally_unknown".toList), []⟩)
        = [⟨some (.str "totally_unknown".toList), false,
            "Unknown or unimplemented action type: totally_unknown"⟩])
    ∧ (∀ (cfg : Config) (ext : ExtEnv) (tok : List Char) (d : List (List Char × Json)),
        tok ≠ "send_email".toList → tok ≠ "send_slack_notification".toList →
        dispatchOne cfg ext ⟨some (.str tok), d⟩
          = ⟨some (.str tok), false,
             "Unknown or unimplemented action type: " ++ String.mk tok⟩) := by
  constructor
  · intro cfg oracle; rfl
  · intro cfg ext tok d h1 h2
    have b1 : isTypeStr (some (.str tok)) "send_email" = false := by
      simp only [isTypeStr, decide_eq_false_iff_not]
      exact h1
    have b2 : isTypeStr (some (.str tok)) "send_slack_notification" = false := by
      simp only [isTypeStr, decide_eq_false_iff_not]
      exact h2
    simp [dispatchOne, b1, b2, pyStrOfActionType, pyStr]

/-- Concrete instance of `C6_unknown_action_type` for the type `ping`. -/
theorem C6_witness :
    dispatchOne cfgNone ⟨.ok (), .ok ()⟩ ⟨some (.str "ping".toList), []⟩
      = ⟨some (.str "ping".toList), false, "Unknown or unimplemented action type: ping"⟩ :=
  C6_unknown_action_type.2 cfgNone ⟨.ok (), .ok ()⟩ _ [] (by decide) (by decide)

/-! ## C7: empty or missing command -/

/-- C7: a request whose `command` is missing or the empty string is rejected
with a client error (HTTP 400) carrying an error message, before the
completion API is consulted (`llmCalled = false`) and without touching the
store. -/
theorem C7_empty_command_rejected_before_llm :
    ∀ (env : AutomateEnv) (store : List WorkflowRecord) (command : Option String),
      (command = none ∨ command = some "") →
      (automate_workflow env store command).resp.status = 400
      ∧ (automate_workflow env store command).resp.error.isSome = true
      ∧ (automate_workflow env store command).llmCalled = false
      ∧ (automate_workflow env store command).store = store := by
  intro env store command h
  rcases h with rfl | rfl <;> exact ⟨rfl, rfl, rfl, rfl⟩

/-- Concrete instance of `C7_empty_command_rejected_before_llm`. -/
theorem C7_witness :
    (automate_workflow envBlocked [] none).resp.status = 400
    ∧ (automate_workflow envBlocked [] none).resp.error.isSome = true
    ∧ (automate_workflow envBlocked [] none).llmCalled = false
    ∧ (automate_workflow envBlocked [] none).store = [] :=
  C7_empty_command_rejected_before_llm envBlocked [] none (Or.inl rfl)

/-! ## C10: an empty JSON list from the model -/

/-- C10: when the model reply decodes to the empty JSON list, no first
element is taken — the value falls through to the not-a-dictionary check,
whose `ValueError` (reporting `<class 'list'>`) turns into an HTTP 400
response that carries the raw upstream text, and no record is persisted. -/
theorem C10_empty_list_client_error :
    ∀ (env : AutomateEnv) (store : List WorkflowRecord) (command : Option String)
      (text : List Char),
      pyTruthyStr command = true →
      env.gemini = .ok text →
      jsonParse (stripFence (pyStrip text)) = some (.arr []) →
      (automate_workflow env store command).resp.status = 400
      ∧ (automate_workflow env store command).resp.error
          = some (valueErrorMsg (.arr []) (pyStrip text))
      ∧ (automate_workflow env store command).resp.gemini_raw = some (pyStrip text)
      ∧ (automate_workflow env store command).store = store := by
  intro env store command text hcmd hg hp
  obtain ⟨g, db, cfg, orc⟩ := env
  simp only at hg
  subst hg
  simp [automate_workflow, hcmd, hp, normalizeParsed]

/-- Concrete instance of `C10_empty_list_client_error`: the reply `[]`. -/
theorem C10_witness :
    (automate_workflow envEmptyList [] (some "notify")).resp.status = 400
    ∧ (automate_workflow envEmptyList [] (some "notify")).resp.error
        = some (valueErrorMsg (.arr []) (pyStrip "[]".toList))
    ∧ (automate_workflow envEmptyList [] (some "notify")).resp.gemini_raw
        = some (pyStrip "[]".toList)
    ∧ (automate_workflow envEmptyList [] (some "notify")).store = [] :=
  C10_empty_list_client_error envEmptyList [] (some "notify") "[]".toList rfl rfl rfl

/-! ## C4: list replies take the first element; non-list non-dict fails -/

/-- C4: a model reply decoding to a (non-empty) JSON list has its first
element taken as the parsed workflow, the rest discarded; a reply decoding
to neither a list nor a keyed mapping makes interpretation fail with the
malformed-response `ValueError`, surfacing as an HTTP 400 whose body carries
the raw text (inside the message and as `gemini_raw_response`). -/
theorem C4_list_first_element_or_malformed :
    (∀ (raw : List Char) (x : Json) (xs : List Json),
        normalizeParsed raw (.arr (x :: xs)) = .ok x)
    ∧ (∀ (text : List Char) (x : Json) (xs : List Json),
        jsonParse (stripFence (pyStrip text)) = some (.arr (x :: xs)) →
        interpParsed (.ok text) = some x)
    ∧ (∀ (env : AutomateEnv) (store : List WorkflowRecord) (command : Option String)
         (text : List Char) (v : Json),
        pyTruthyStr command = true →
        env.gemini = .ok text →
        jsonParse (stripFence (pyStrip text)) = some v →
        isList v = false → isObj v = false →
        (automate_workflow env store command).resp.status = 400
        ∧ (automate_workflow env store command).resp.error
            = some (valueErrorMsg v (pyStrip text))
        ∧ (automate_workflow env store command).resp.gemini_raw = some (pyStrip text)) := by
  refine ⟨fun _ _ _ => rfl, ?_, ?_⟩
  · intro text x xs hp
    simp [interpParsed, hp, normalizeParsed]
  · intro env store command text v hcmd hg hp hnl hno
    obtain ⟨g, db, cfg, orc⟩ := env
    simp only at hg
    subst hg
    have hnorm : normalizeParsed (pyStrip text) v = .error (valueErrorMsg v (pyStrip text)) := by
      cases v with
      | arr es => simp [isList] at hnl
      | obj ms => simp [isObj] at hno
      | null => rfl
      | bool b => rfl
      | num t => rfl
      | str t => rfl
    simp [automate_workflow, hcmd, hp, hnorm]

/-- Concrete instance of `C4_list_first_element_or_malformed`: the reply
`[1, 2]` parses to the number `1`, and the reply `3` yields a 400 with the
raw text. -/
theorem C4_witness :
    interpParsed (.ok "[1, 2]".toList) = some (.num ['1'])
    ∧ (automate_workflow envBareNum [] (some "notify")).resp.status = 400
    ∧ (automate_workflow envBareNum [] (some "notify")).resp.error
        = some (valueErrorMsg (.num ['3']) (pyStrip "3".toList))
    ∧ (automate_workflow envBareNum [] (some "notify")).resp.gemini_raw
        = some (pyStrip "3".toList) :=
  ⟨C4_list_first_element_or_malformed.2.1 "[1, 2]".toList (.num ['1']) [.num ['2']] rfl,
   C4_list_first_element_or_malformed.2.2 envBareNum [] (some "notify") "3".toList
     (.num ['3']) rfl rfl rfl rfl rfl⟩

/-! ## C8: the store is append-only, at most one record per request -/

/-- C8: every request grows the store by at most one record (appended at the
end — nothing is ever updated or deleted), and a request whose
interpretation fails appends nothing. -/
theorem C8_store_append_only :
    ∀ (env : AutomateEnv) (store : List WorkflowRecord) (command : Option String),
      ∃ recs, (automate_workflow env store command).store = store ++ recs
        ∧ recs.length ≤ 1
        ∧ (interpParsed env.gemini = none → recs = []) := by
  intro env store command
  obtain ⟨g, db, cfg, orc⟩ := env
  cases hcmd : pyTruthyStr command with
  | false =>
    exact ⟨[], by simp [automate_workflow, hcmd], by simp, fun _ => rfl⟩
  | true =>
    cases g with
    | blocked fb => exact ⟨[], by simp [automate_workflow, hcmd], by simp, fun _ => rfl⟩
    | apiError code detail =>
      exact ⟨[], by simp [automate_workflow, hcmd], by simp, fun _ => rfl⟩
    | otherError detail =>
      exact ⟨[], by simp [automate_workflow, hcmd], by simp, fun _ => rfl⟩
    | ok text =>
      cases hp : jsonParse (stripFence (pyStrip text)) with
      | none =>
        exact ⟨[], by simp [automate_workflow, hcmd, hp], by simp, fun _ => rfl⟩
      | some pw0 =>
        cases hn : normalizeParsed (pyStrip text) pw0 with
        | error msg =>
          exact ⟨[], by simp [automate_workflow, hcmd, hp, hn], by simp, fun _ => rfl⟩
        | ok pw =>
          have hip : interpParsed (.ok text) = some pw := by
            simp [interpParsed, hp, hn]
          cases htr : jsonTruthy pw && isObj pw with
          | false =>
            refine ⟨[], by simp [automate_workflow, hcmd, hp, hn, htr], by simp, fun _ => rfl⟩
          | true =>
            cases db with
            | ok =>
              refine ⟨[⟨command.getD "", pw⟩], ?_, by simp, ?_⟩
              · simp [automate_workflow, hcmd, hp, hn, htr, save_workflow_to_db]
                try split <;> (try split) <;> simp
              · intro habs; rw [hip] at habs; cases habs
            | insertFail e =>
              refine ⟨[], ?_, by simp, fun _ => rfl⟩
              simp [automate_workflow, hcmd, hp, hn, htr, save_workflow_to_db]
              try split <;> (try split) <;> simp
            | connectFail e =>
              refine ⟨[], ?_, by simp, fun _ => rfl⟩
              simp [automate_workflow, hcmd, hp, hn, htr, save_workflow_to_db]

/-! ## C3: what failure bodies carry -/

/-- C3 (amended): every failure response of `/automate` carries an `error`
message, and it carries the raw upstream text as `gemini_raw_response`
exactly on the interpretation-phase failure paths: a failure body either
has the raw-text key, or belongs to a request rejected before the model was
called, or is one of the two post-interpretation failure bodies
(`"Failed to save or execute workflow."`,
`"Gemini could not generate a valid structured workflow."`), which omit it. -/
theorem C3_failure_bodies :
    ∀ (env : AutomateEnv) (store : List WorkflowRecord) (command : Option String),
      (automate_workflow env store command).resp.status ≠ 200 →
      (automate_workflow env store command).resp.error.isSome = true
      ∧ ((automate_workflow env store command).resp.gemini_raw.isSome = true
         ∨ (automate_workflow env store command).llmCalled = false
         ∨ (automate_workflow env store command).resp.error
             = some "Failed to save or execute workflow."
         ∨ (automate_workflow env store command).resp.error
             = some "Gemini could not generate a valid structured workflow.") := by
  intro env store command
  suffices h : (automate_workflow env store command).resp.status = 200
      ∨ ((automate_workflow env store command).resp.error.isSome = true
         ∧ ((automate_workflow env store command).resp.gemini_raw.isSome = true
            ∨ (automate_workflow env store command).llmCalled = false
            ∨ (automate_workflow env store command).resp.error
                = some "Failed to save or execute workflow."
            ∨ (automate_workflow env store command).resp.error
                = some "Gemini could not generate a valid structured workflow.")) by
    intro hs
    rcases h with h | h
    · exact absurd h hs
    · exact h
  obtain ⟨g, db, cfg, orc⟩ := env
  cases hcmd : pyTruthyStr command with
  | false => simp [automate_workflow, hcmd]
  | true =>
    cases g with
    | blocked fb => simp [automate_workflow, hcmd]
    | apiError code detail => simp [automate_workflow, hcmd]
    | otherError detail => simp [automate_workflow, hcmd]
    | ok text =>
      cases hp : jsonParse (stripFence (pyStrip text)) with
      | none => simp [automate_workflow, hcmd, hp]
      | some pw0 =>
        cases hn : normalizeParsed (pyStrip text) pw0 with
        | error msg => simp [automate_workflow, hcmd, hp, hn]
        | ok pw =>
          cases htr : jsonTruthy pw && isObj pw with
          | false => simp [automate_workflow, hcmd, hp, hn, htr]
          | true =>
            cases db with
            | connectFail e =>
              simp [automate_workflow, hcmd, hp, hn, htr, save_workflow_to_db]
            | ok =>
              simp [automate_workflow, hcmd, hp, hn, htr, save_workflow_to_db]
              try split <;> (try split) <;> simp
            | insertFail e =>
              simp [automate_workflow, hcmd, hp, hn, htr, save_workflow_to_db]
              try split <;> (try split) <;> simp

/-- Counterexample to C3 as stated: on the reply `{}` a raw upstream text
was obtained (the model call returned), interpretation succeeded, yet the
failure response (500) has no `gemini_raw_response` key. -/
theorem C3_counterexample :
    envEmptyObj.gemini = .ok "\x7b\x7d".toList
    ∧ (automate_workflow envEmptyObj [] (some "notify")).llmCalled = true
    ∧ (automate_workflow envEmptyObj [] (some "notify")).resp.status = 500
    ∧ (automate_workflow envEmptyObj [] (some "notify")).resp.error
        = some "Gemini could not generate a valid structured workflow."
    ∧ (automate_workflow envEmptyObj [] (some "notify")).resp.gemini_raw = none :=
  ⟨rfl, rfl, rfl, rfl, rfl⟩

/-- Concrete instance of `C3_failure_bodies`. -/
theorem C3_witness :
    (automate_workflow envEmptyObj [] (some "notify")).resp.error.isSome = true
    ∧ ((automate_workflow envEmptyObj [] (some "notify")).resp.gemini_raw.isSome = true
       ∨ (automate_workflow envEmptyObj [] (some "notify")).llmCalled = false
       ∨ (automate_workflow envEmptyObj [] (some "notify")).resp.error
           = some "Failed to save or execute workflow."
       ∨ (automate_workflow envEmptyObj [] (some "notify")).resp.error
           = some "Gemini could not generate a valid structured workflow.") :=
  C3_failure_bodies envEmptyObj [] (some "notify") (by decide)

/-! ## C1: persistence failure after successful interpretation -/

/-- C1 (amended): only a persistence failure that escapes
`save_workflow_to_db` — the `sqlite3.connect` call, which sits before its
`try` — makes the request return 500 and skip dispatch.  A failure of the
insert/commit itself is caught (and only logged) inside
`save_workflow_to_db`, so no record is stored but the request otherwise
proceeds exactly as on a successful insert: same response, same dispatch
behaviour. -/
theorem C1_persistence_failure_paths :
    ∀ (env : AutomateEnv) (store : List WorkflowRecord) (command : Option String)
      (e : String),
      (env.db = .connectFail e →
        pyTruthyStr command = true →
        ∀ pw, interpParsed env.gemini = some pw →
          jsonTruthy pw = true → isObj pw = true →
          (automate_workflow env store command).resp.status = 500
          ∧ (automate_workflow env store command).resp.error
              = some "Failed to save or execute workflow."
          ∧ (automate_workflow env store command).dispatched = false
          ∧ (automate_workflow env store command).store = store)
      ∧ (env.db = .insertFail e →
          (automate_workflow env store command).store = store
          ∧ (automate_workflow env store command).resp
              = (automate_workflow ⟨env.gemini, .ok, env.cfg, env.oracle⟩ store command).resp
          ∧ (automate_workflow env store command).dispatched
              = (automate_workflow ⟨env.gemini, .ok, env.cfg, env.oracle⟩ store command).dispatched) := by
  intro env store command e
  obtain ⟨g, db, cfg, orc⟩ := env
  constructor
  · intro hdb hcmd pw hip htru hobj
    simp only at hdb
    subst hdb
    cases g with
    | blocked fb => simp [interpParsed] at hip
    | apiError code detail => simp [interpParsed] at hip
    | otherError detail => simp [interpParsed] at hip
    | ok text =>
      cases hp : jsonParse (stripFence (pyStrip text)) with
      | none => simp [interpParsed, hp] at hip
      | some pw0 =>
        cases hn : normalizeParsed (pyStrip text) pw0 with
        | error msg => simp [interpParsed, hp, hn] at hip
        | ok pw' =>
          simp only [interpParsed, hp, hn, Option.some.injEq] at hip
          subst hip
          refine ⟨?_, ?_, ?_, ?_⟩ <;>
            simp [automate_workflow, hcmd, hp, hn, htru, hobj, save_workflow_to_db]
  · intro hdb
    simp only at hdb
    subst hdb
    cases hcmd : pyTruthyStr command with
    | false => refine ⟨?_, ?_, ?_⟩ <;> simp [automate_workflow, hcmd]
    | true =>
      cases g with
      | blocked fb => refine ⟨?_, ?_, ?_⟩ <;> simp [automate_workflow, hcmd]
      | apiError code detail => refine ⟨?_, ?_, ?_⟩ <;> simp [automate_workflow, hcmd]
      | otherError detail => refine ⟨?_, ?_, ?_⟩ <;> simp [automate_workflow, hcmd]
      | ok text =>
        cases hp : jsonParse (stripFence (pyStrip text)) with
        | none =>
          refine ⟨?_, ?_, ?_⟩ <;> simp [automate_workflow, hcmd, hp]
        | some pw0 =>
          cases hn : normalizeParsed (pyStrip text) pw0 with
          | error msg =>
            refine ⟨?_, ?_, ?_⟩ <;> simp [automate_workflow, hcmd, hp, hn]
          | ok pw =>
            cases htr : jsonTruthy pw && isObj pw with
            | false =>
              refine ⟨?_, ?_, ?_⟩ <;> simp [automate_workflow, hcmd, hp, hn, htr]
            | true =>
              refine ⟨?_, ?_, ?_⟩ <;>
                (simp [automate_workflow, hcmd, hp, hn, htr, save_workflow_to_db]
                 try split <;> (try split) <;> simp)

/-- Counterexample to C1 as stated: the insert fails (`envInsFail`), the
interpretation succeeded (`{"actions": []}`), persistence stores nothing —
yet the request dispatches and returns 200, not a server error. -/
theorem C1_counterexample :
    envInsFail.db = .insertFail "disk I/O error"
    ∧ (automate_workflow envInsFail [] (some "notify")).resp.status = 200
    ∧ (automate_workflow envInsFail [] (some "notify")).dispatched = true
    ∧ (automate_workflow envInsFail [] (some "notify")).store = [] :=
  ⟨rfl, rfl, rfl, rfl⟩

/-- Concrete instance of `C1_persistence_failure_paths` on both failure
kinds. -/
theorem C1_witness :
    ((automate_workflow envConnFail [] (some "notify")).resp.status = 500
     ∧ (automate_workflow envConnFail [] (some "notify")).resp.error
         = some "Failed to save or execute workflow."
     ∧ (automate_workflow envConnFail [] (some "notify")).dispatched = false
     ∧ (automate_workflow envConnFail [] (some "notify")).store = [])
    ∧ ((automate_workflow envInsFail [] (some "notify")).store = []
       ∧ (automate_workflow envInsFail [] (some "notify")).resp
           = (automate_workflow ⟨envInsFail.gemini, .ok, envInsFail.cfg,
               envInsFail.oracle⟩ [] (some "notify")).resp
       ∧ (automate_workflow envInsFail [] (some "notify")).dispatched
           = (automate_workflow ⟨envInsFail.gemini, .ok, envInsFail.cfg,
               envInsFail.oracle⟩ [] (some "notify")).dispatched) :=
  ⟨(C1_persistence_failure_paths envConnFail [] (some "notify")
      "unable to open database file").1 rfl rfl
      (.obj [("actions".toList, .arr [])]) rfl rfl rfl,
   (C1_persistence_failure_paths envInsFail [] (some "notify") "disk I/O error").2 rfl⟩

/-- Concrete instance of `C8_store_append_only` (blocked prompt: nothing is
appended). -/
theorem C8_witness :
    ∃ recs, (automate_workflow envBlocked [] (some "notify")).store = [] ++ recs
      ∧ recs.length ≤ 1
      ∧ (interpParsed envBlocked.gemini = none → recs = []) :=
  C8_store_append_only envBlocked [] (some "notify")

/-! ## Decoder consumption lemmas (towards C5)

`parseX fuel cs = some (x, rest)` splits `cs` into a consumed prefix and
`rest`; the consumed prefix re-parses to the same value in front of any
continuation that cannot extend a number token, with any fuel above its
length.  The prefix's first and last characters are remembered because the
fence-invariance argument needs to know that Python's `strip` cannot eat
into a value token. -/

theorem takeWhile_append_stop {α : Type} {p : α → Bool} {a σ : List α}
    (ha : ∀ x ∈ a, p x = true)
    (hσ : ∀ c t, σ = c :: t → p c = false) :
    (a ++ σ).takeWhile p = a ∧ (a ++ σ).dropWhile p = σ := by
  induction a with
  | nil =>
    cases σ with
    | nil => exact ⟨rfl, rfl⟩
    | cons c t =>
      have hc : p c = false := hσ c t rfl
      simp [List.takeWhile_cons, List.dropWhile_cons, hc]
  | cons x xs ih =>
    have hx : p x = true := ha x (List.mem_cons_self _ _)
    have ih' := ih (fun y hy => ha y (List.mem_cons_of_mem _ hy))
    simp [List.takeWhile_cons, List.dropWhile_cons, hx, ih'.1, ih'.2]

theorem safeTail_of_ws_cons {w : List Char} {c : Char} (l : List Char)
    (hw : ∀ x ∈ w, isJsonWs x = true) (hc : isNumChar c = false) :
    safeTail (w ++ c :: l) = true := by
  cases w with
  | nil => simp [safeTail, hc]
  | cons x xs =>
    have hx : isJsonWs x = true := hw x (List.mem_cons_self _ _)
    simp [safeTail, isJsonWs_not_numChar hx]

theorem startsNum_valStart {c : Char} (h : startsNum c = true) : valStart c = true := by
  simp [valStart, h]

theorem parseStrBody_split :
    ∀ (cs s r : List Char), parseStrBody cs = some (s, r) →
      ∃ pre, cs = pre ++ r ∧ pre ≠ []
        ∧ (∃ ds, pre.reverse = '"' :: ds)
        ∧ ∀ σ, parseStrBody (pre ++ σ) = some (s, σ) := by
  suffices H : ∀ (n : Nat) (cs s r : List Char), cs.length ≤ n →
      parseStrBody cs = some (s, r) →
      ∃ pre, cs = pre ++ r ∧ pre ≠ []
        ∧ (∃ ds, pre.reverse = '"' :: ds)
        ∧ ∀ σ, parseStrBody (pre ++ σ) = some (s, σ) by
    exact fun cs s r h => H cs.length cs s r le_rfl h
  intro n
  induction n with
  | zero =>
    intro cs s r hlen hp
    cases cs with
    | nil => unfold parseStrBody at hp; cases hp
    | cons c cs' => simp only [List.length_cons] at hlen; omega
  | succ k ih =>
    intro cs s r hlen hp
    cases cs with
    | nil => unfold parseStrBody at hp; cases hp
    | cons c cs' =>
      by_cases hq : c = '"'
      · subst hq
        unfold parseStrBody at hp
        simp at hp
        obtain ⟨rfl, rfl⟩ := hp
        refine ⟨['"'], rfl, by simp, ⟨[], rfl⟩, fun σ => ?_⟩
        unfold parseStrBody
        simp
      · by_cases hb : c = '\\'
        · subst hb
          cases cs' with
          | nil => unfold parseStrBody at hp; simp at hp
          | cons d cs'' =>
            cases hps : parseStrBody cs'' with
            | none => unfold parseStrBody at hp; simp [hps] at hp
            | some pr =>
              obtain ⟨s', r'⟩ := pr
              unfold parseStrBody at hp
              simp [hps] at hp
              obtain ⟨rfl, rfl⟩ := hp
              obtain ⟨pre'', hcs, hne, ⟨ds, hrev⟩, hσ⟩ :=
                ih cs'' s' _ (by simp only [List.length_cons] at hlen ⊢; omega) hps
              subst hcs
              refine ⟨'\\' :: d :: pre'', by simp, by simp, ⟨ds ++ [d, '\\'], ?_⟩,
                fun σ => ?_⟩
              · simp [List.reverse_cons, hrev]
              · unfold parseStrBody
                simp [hσ σ]
        · cases hps : parseStrBody cs' with
          | none => unfold parseStrBody at hp; simp [hps, hq, hb] at hp
          | some pr =>
            obtain ⟨s', r'⟩ := pr
            unfold parseStrBody at hp
            simp [hps, hq, hb] at hp
            obtain ⟨rfl, rfl⟩ := hp
            obtain ⟨pre', hcs, hne, ⟨ds, hrev⟩, hσ⟩ :=
              ih cs' s' _ (by simp only [List.length_cons] at hlen ⊢; omega) hps
            subst hcs
            refine ⟨c :: pre', by simp, by simp, ⟨ds ++ [c], ?_⟩, fun σ => ?_⟩
            · simp [List.reverse_cons, hrev]
            · unfold parseStrBody
              simp [hσ σ, hq, hb]

theorem startsNum_isNumChar {c : Char} (h : startsNum c = true) : isNumChar c = true := by
  simp only [startsNum, Bool.or_eq_true] at h
  rcases h with h | h <;> simp [isNumChar, h]

theorem parse_split :
    ∀ n : Nat,
      (∀ cs v rest, parseVal n cs = some (v, rest) → ValSplit v cs rest)
      ∧ (∀ cs vs rest, parseElems n cs = some (vs, rest) → ElemsSplit vs cs rest)
      ∧ (∀ cs ms rest, parseMembers n cs = some (ms, rest) → MembersSplit ms cs rest) := by
  intro n
  induction n with
  | zero =>
    refine ⟨?_, ?_, ?_⟩ <;> intro cs x rest hp <;> exact nomatch hp
  | succ k ih =>
    obtain ⟨ihV, ihE, ihM⟩ := ih
    refine ⟨?_, ?_, ?_⟩
    · intro cs v rest hp
      unfold parseVal at hp
      split at hp
      · -- null
        rename_i r0
        simp only [Option.some.injEq, Prod.mk.injEq] at hp
        obtain ⟨rfl, rfl⟩ := hp
        refine ⟨['n', 'u', 'l', 'l'], rfl, ⟨'n', _, rfl, by decide⟩,
          ⟨'l', ['l', 'u', 'n'], by decide, by decide⟩, ?_⟩
        intro σ m hσ hm
        obtain ⟨m', rfl⟩ : ∃ m', m = m' + 1 := ⟨m - 1, by omega⟩
        rfl
      · -- true
        rename_i r0
        simp only [Option.some.injEq, Prod.mk.injEq] at hp
        obtain ⟨rfl, rfl⟩ := hp
        refine ⟨['t', 'r', 'u', 'e'], rfl, ⟨'t', _, rfl, by decide⟩,
          ⟨'e', ['u', 'r', 't'], by decide, by decide⟩, ?_⟩
        intro σ m hσ hm
        obtain ⟨m', rfl⟩ : ∃ m', m = m' + 1 := ⟨m - 1, by omega⟩
        rfl
      · -- false
        rename_i r0
        simp only [Option.some.injEq, Prod.mk.injEq] at hp
        obtain ⟨rfl, rfl⟩ := hp
        refine ⟨['f', 'a', 'l', 's', 'e'], rfl, ⟨'f', _, rfl, by decide⟩,
          ⟨'e', ['s', 'l', 'a', 'f'], by decide, by decide⟩, ?_⟩
        intro σ m hσ hm
        obtain ⟨m', rfl⟩ : ∃ m', m = m' + 1 := ⟨m - 1, by omega⟩
        rfl
      · -- string
        rename_i r0
        split at hp
        · rename_i s' r' heqS
          simp only [Option.some.injEq, Prod.mk.injEq] at hp
          obtain ⟨rfl, rfl⟩ := hp
          obtain ⟨preS, hcsS, hneS, ⟨ds, hrevS⟩, hσS⟩ := parseStrBody_split r0 s' _ heqS
          subst hcsS
          refine ⟨'"' :: preS, by simp, ⟨'"', preS, rfl, by decide⟩,
            ⟨'"', ds ++ ['"'], ?_, by decide⟩, ?_⟩
          · simp [List.reverse_cons, hrevS]
          · intro σ m hσ hm
            obtain ⟨m', rfl⟩ : ∃ m', m = m' + 1 := ⟨m - 1, by omega⟩
            unfold parseVal
            simp only [List.cons_append]
            rw [hσS σ]
        · exact nomatch hp
      · -- array
        rename_i r0
        split at hp
        · -- empty array
          rename_i x r' heqW
          simp only [Option.some.injEq, Prod.mk.injEq] at hp
          obtain ⟨rfl, rfl⟩ := hp
          have hwall : ∀ y ∈ r0.takeWhile isJsonWs, isJsonWs y = true :=
            fun y hy => List.mem_takeWhile_imp hy
          have hdec : r0 = r0.takeWhile isJsonWs ++ (']' :: r') := by
            conv_lhs => rw [← List.takeWhile_append_dropWhile (p := isJsonWs) (l := r0)]
            rw [show List.dropWhile isJsonWs r0 = ']' :: r' from heqW]
          refine ⟨'[' :: (r0.takeWhile isJsonWs ++ [']']), ?_,
            ⟨'[', _, rfl, by decide⟩,
            ⟨']', (r0.takeWhile isJsonWs).reverse ++ ['['], ?_, by decide⟩, ?_⟩
          · conv_lhs => rw [hdec]
            simp
          · simp
          · intro σ m hσ hm
            obtain ⟨m', rfl⟩ : ∃ m', m = m' + 1 := ⟨m - 1, by omega⟩
            have hsw : skipWs (r0.takeWhile isJsonWs ++ (']' :: σ)) = ']' :: σ :=
              skipWs_ws_cons σ hwall (by decide)
            unfold parseVal
            simp [hsw]
        · -- non-empty array
          rename_i x hnotMT
          split at hp
          · rename_i vs r' heqE
            simp only [Option.some.injEq, Prod.mk.injEq] at hp
            obtain ⟨rfl, rfl⟩ := hp
            obtain ⟨preE, hE, ⟨cE, tE, hpreE, hcE⟩, ⟨dsE, hrevE⟩, reE⟩ :=
              ihE (skipWs r0) vs _ heqE
            subst hpreE
            have hwall : ∀ y ∈ r0.takeWhile isJsonWs, isJsonWs y = true :=
              fun y hy => List.mem_takeWhile_imp hy
            have hdec : r0 = r0.takeWhile isJsonWs ++ ((cE :: tE) ++ r') := by
              conv_lhs => rw [← List.takeWhile_append_dropWhile (p := isJsonWs) (l := r0)]
              rw [show List.dropWhile isJsonWs r0 = (cE :: tE) ++ r' from hE]
            refine ⟨'[' :: (r0.takeWhile isJsonWs ++ (cE :: tE)), ?_,
              ⟨'[', _, rfl, by decide⟩,
              ⟨']', dsE ++ ((r0.takeWhile isJsonWs).reverse ++ ['[']), ?_, by decide⟩, ?_⟩
            · conv_lhs => rw [hdec]
              simp
            · simp [List.reverse_append, hrevE]
            · intro σ m hσ hm
              obtain ⟨m', rfl⟩ : ∃ m', m = m' + 1 := ⟨m - 1, by omega⟩
              have hmE : (cE :: tE).length + 1 ≤ m' := by
                simp only [List.length_cons, List.length_append] at hm ⊢
                omega
              have hsw : skipWs (r0.takeWhile isJsonWs ++ (cE :: (tE ++ σ))) = cE :: (tE ++ σ) :=
                skipWs_ws_cons _ hwall (valStart_not_jsonWs hcE)
              have hre : parseElems m' (cE :: (tE ++ σ)) = some (vs, σ) := by
                have := reE σ m' hσ hmE
                simpa using this
              unfold parseVal
              simp only [List.cons_append, List.append_assoc]
              rw [hsw]
              split
              · rename_i r'' heq2
                obtain ⟨hc, -⟩ := List.cons.injEq .. |>.mp heq2
                subst hc
                exact absurd hcE (by decide)
              · rename_i x2 hne2
                rw [hre]
          · exact nomatch hp
      · -- object
        rename_i r0
        split at hp
        · -- empty object
          rename_i x r' heqW
          simp only [Option.some.injEq, Prod.mk.injEq] at hp
          obtain ⟨rfl, rfl⟩ := hp
          have hwall : ∀ y ∈ r0.takeWhile isJsonWs, isJsonWs y = true :=
            fun y hy => List.mem_takeWhile_imp hy
          have hdec : r0 = r0.takeWhile isJsonWs ++ ('}' :: r') := by
            conv_lhs => rw [← List.takeWhile_append_dropWhile (p := isJsonWs) (l := r0)]
            rw [show List.dropWhile isJsonWs r0 = '}' :: r' from heqW]
          refine ⟨'{' :: (r0.takeWhile isJsonWs ++ ['}']), ?_,
            ⟨'{', _, rfl, by decide⟩,
            ⟨'}', (r0.takeWhile isJsonWs).reverse ++ ['{'], ?_, by decide⟩, ?_⟩
          · conv_lhs => rw [hdec]
            simp
          · simp
          · intro σ m hσ hm
            obtain ⟨m', rfl⟩ : ∃ m', m = m' + 1 := ⟨m - 1, by omega⟩
            have hsw : skipWs (r0.takeWhile isJsonWs ++ ('}' :: σ)) = '}' :: σ :=
              skipWs_ws_cons σ hwall (by decide)
            unfold parseVal
            simp [hsw]
        · -- non-empty object
          rename_i x hnotMT
          split at hp
          · rename_i ms r' heqM
            simp only [Option.some.injEq, Prod.mk.injEq] at hp
            obtain ⟨rfl, rfl⟩ := hp
            obtain ⟨preM, hM, ⟨tM, hpreM⟩, ⟨dsM, hrevM⟩, reM⟩ :=
              ihM (skipWs r0) ms _ heqM
            subst hpreM
            have hwall : ∀ y ∈ r0.takeWhile isJsonWs, isJsonWs y = true :=
              fun y hy => List.mem_takeWhile_imp hy
            have hdec : r0 = r0.takeWhile isJsonWs ++ (('"' :: tM) ++ r') := by
              conv_lhs => rw [← List.takeWhile_append_dropWhile (p := isJsonWs) (l := r0)]
              rw [show List.dropWhile isJsonWs r0 = ('"' :: tM) ++ r' from hM]
            refine ⟨'{' :: (r0.takeWhile isJsonWs ++ ('"' :: tM)), ?_,
              ⟨'{', _, rfl, by decide⟩,
              ⟨'}', dsM ++ ((r0.takeWhile isJsonWs).reverse ++ ['{']), ?_, by decide⟩, ?_⟩
            · conv_lhs => rw [hdec]
              simp
            · simp [List.reverse_append, hrevM]
            · intro σ m hσ hm
              obtain ⟨m', rfl⟩ : ∃ m', m = m' + 1 := ⟨m - 1, by omega⟩
              have hmM : ('"' :: tM).length + 1 ≤ m' := by
                simp only [List.length_cons, List.length_append] at hm ⊢
                omega
              have hsw : skipWs (r0.takeWhile isJsonWs ++ ('"' :: (tM ++ σ))) = '"' :: (tM ++ σ) :=
                skipWs_ws_cons _ hwall (by decide)
              have hre : parseMembers m' ('"' :: (tM ++ σ)) = some (ms, σ) := by
                have := reM σ m' hσ hmM
                simpa using this
              unfold parseVal
              simp only [List.cons_append, List.append_assoc]
              rw [hsw]
              simp [hre]
          · exact nomatch hp
      · -- number
        rename_i c r0 hn1 hn2 hn3 hn4 hn5 hn6
        split at hp
        · rename_i hsn
          simp only [Option.some.injEq, Prod.mk.injEq] at hp
          obtain ⟨rfl, rfl⟩ := hp
          have hnc : isNumChar c = true := startsNum_isNumChar hsn
          have hpre : (c :: r0).takeWhile isNumChar = c :: r0.takeWhile isNumChar := by
            simp [List.takeWhile_cons, hnc]
          have hallnum : ∀ y ∈ (c :: r0).takeWhile isNumChar, isNumChar y = true :=
            fun y hy => List.mem_takeWhile_imp hy
          have hcsdec : c :: r0
              = (c :: r0).takeWhile isNumChar ++ (c :: r0).dropWhile isNumChar :=
            (List.takeWhile_append_dropWhile _ _).symm
          refine ⟨(c :: r0).takeWhile isNumChar, hcsdec,
            ⟨c, r0.takeWhile isNumChar, hpre, startsNum_valStart hsn⟩, ?_, ?_⟩
          · rcases hrv : ((c :: r0).takeWhile isNumChar).reverse with _ | ⟨d, ds⟩
            · exfalso
              have : (c :: r0).takeWhile isNumChar = [] := by
                have := congrArg List.reverse hrv
                simpa using this
              rw [hpre] at this
              cases this
            · refine ⟨d, ds, rfl, ?_⟩
              have hdmem : d ∈ (c :: r0).takeWhile isNumChar := by
                rw [← List.mem_reverse, hrv]
                exact List.mem_cons_self _ _
              exact isNumChar_not_pyWs (hallnum d hdmem)
          · intro σ m hσ hm
            obtain ⟨m', rfl⟩ : ∃ m', m = m' + 1 := ⟨m - 1, by omega⟩
            have hstop := takeWhile_append_stop (p := isNumChar)
              (a := (c :: r0).takeWhile isNumChar) (σ := σ) hallnum
              (fun c' t' hσ' => by
                subst hσ'
                simp only [safeTail, Bool.not_eq_true'] at hσ
                exact hσ)
            rw [hpre]
            unfold parseVal
            split
            · rename_i r2 heq2
              obtain ⟨hc, -⟩ := List.cons.injEq .. |>.mp (by simpa using heq2)
              exact absurd hsn (by rw [hc]; decide)
            · rename_i r2 heq2
              obtain ⟨hc, -⟩ := List.cons.injEq .. |>.mp (by simpa using heq2)
              exact absurd hsn (by rw [hc]; decide)
            · rename_i r2 heq2
              obtain ⟨hc, -⟩ := List.cons.injEq .. |>.mp (by simpa using heq2)
              exact absurd hsn (by rw [hc]; decide)
            · rename_i r2 heq2
              obtain ⟨hc, -⟩ := List.cons.injEq .. |>.mp (by simpa using heq2)
              exact absurd hsn (by rw [hc]; decide)
            · rename_i r2 heq2
              obtain ⟨hc, -⟩ := List.cons.injEq .. |>.mp (by simpa using heq2)
              exact absurd hsn (by rw [hc]; decide)
            · rename_i r2 heq2
              obtain ⟨hc, -⟩ := List.cons.injEq .. |>.mp (by simpa using heq2)
              exact absurd hsn (by rw [hc]; decide)
            · rename_i c2 r2 hx1 hx2 hx3 hx4 hx5 hx6 heq2
              obtain ⟨hc, hr⟩ := List.cons.injEq .. |>.mp (by simpa using heq2)
              subst hc
              rw [if_pos hsn, ← hr]
              have hx : c :: (List.takeWhile isNumChar r0 ++ σ)
                  = List.takeWhile isNumChar (c :: r0) ++ σ := by
                rw [hpre]; rfl
              rw [hx, hstop.1, hstop.2, hpre]
            · rename_i heq2
              exact nomatch (by simpa using heq2 : (False : Prop))
        · exact nomatch hp
      · exact nomatch hp
    · intro cs vs rest hp
      unfold parseElems at hp
      split at hp
      · rename_i v r heqV
        split at hp
        · -- comma: more elements follow
          rename_i r2 heqC
          split at hp
          · rename_i vs' r3 heqE2
            simp only [Option.some.injEq, Prod.mk.injEq] at hp
            obtain ⟨rfl, rfl⟩ := hp
            obtain ⟨preV, hcsV, ⟨cV, tV, hpreV, hcV⟩, -, reV⟩ := ihV cs v _ heqV
            subst hpreV
            subst hcsV
            obtain ⟨preE2, hE2, ⟨cE2, tE2, hpreE2, hcE2⟩, ⟨dsE2, hrevE2⟩, reE2⟩ :=
              ihE (skipWs r2) vs' _ heqE2
            subst hpreE2
            have hwall1 : ∀ y ∈ r.takeWhile isJsonWs, isJsonWs y = true :=
              fun y hy => List.mem_takeWhile_imp hy
            have hwall2 : ∀ y ∈ r2.takeWhile isJsonWs, isJsonWs y = true :=
              fun y hy => List.mem_takeWhile_imp hy
            have hdec1 : r = r.takeWhile isJsonWs ++ (',' :: r2) := by
              conv_lhs => rw [← List.takeWhile_append_dropWhile (p := isJsonWs) (l := r)]
              rw [show List.dropWhile isJsonWs r = ',' :: r2 from heqC]
            have hdec2 : r2 = r2.takeWhile isJsonWs ++ ((cE2 :: tE2) ++ r3) := by
              conv_lhs => rw [← List.takeWhile_append_dropWhile (p := isJsonWs) (l := r2)]
              rw [show List.dropWhile isJsonWs r2 = (cE2 :: tE2) ++ r3 from hE2]
            refine ⟨(cV :: tV) ++ (r.takeWhile isJsonWs
                ++ (',' :: (r2.takeWhile isJsonWs ++ (cE2 :: tE2)))), ?_,
              ⟨cV, _, rfl, hcV⟩,
              ⟨dsE2 ++ ((r2.takeWhile isJsonWs).reverse
                ++ (',' :: ((r.takeWhile isJsonWs).reverse ++ (tV.reverse ++ [cV])))), ?_⟩, ?_⟩
            · conv_lhs => rw [hdec1, hdec2]
              simp
            · simp [List.reverse_append, hrevE2]
            · intro σ m hσ hm
              obtain ⟨m', rfl⟩ : ∃ m', m = m' + 1 := ⟨m - 1, by omega⟩
              have hmV : (cV :: tV).length + 1 ≤ m' := by
                simp only [List.length_cons, List.length_append] at hm ⊢
                omega
              have hmE : (cE2 :: tE2).length + 1 ≤ m' := by
                simp only [List.length_cons, List.length_append] at hm ⊢
                omega
              have hσ1 : safeTail (r.takeWhile isJsonWs
                  ++ ',' :: (r2.takeWhile isJsonWs ++ (cE2 :: (tE2 ++ σ)))) = true :=
                safeTail_of_ws_cons _ hwall1 (by decide)
              have hV' := reV (r.takeWhile isJsonWs
                  ++ ',' :: (r2.takeWhile isJsonWs ++ (cE2 :: (tE2 ++ σ)))) m' hσ1 hmV
              have hs1 : skipWs (r.takeWhile isJsonWs
                  ++ ',' :: (r2.takeWhile isJsonWs ++ (cE2 :: (tE2 ++ σ))))
                  = ',' :: (r2.takeWhile isJsonWs ++ (cE2 :: (tE2 ++ σ))) :=
                skipWs_ws_cons _ hwall1 (by decide)
              have hs2 : skipWs (r2.takeWhile isJsonWs ++ (cE2 :: (tE2 ++ σ)))
                  = cE2 :: (tE2 ++ σ) :=
                skipWs_ws_cons _ hwall2 (valStart_not_jsonWs hcE2)
              have hE' : parseElems m' (cE2 :: (tE2 ++ σ)) = some (vs', σ) := by
                have := reE2 σ m' hσ hmE
                simpa using this
              unfold parseElems
              simp only [List.cons_append, List.append_assoc, List.singleton_append, List.nil_append]
              simp only [List.cons_append, List.append_assoc] at hV'
              rw [hV']
              simp [hs1, hs2, hE']
          · exact nomatch hp
        · -- closing bracket: last element
          rename_i r2 heqC
          simp only [Option.some.injEq, Prod.mk.injEq] at hp
          obtain ⟨rfl, rfl⟩ := hp
          obtain ⟨preV, hcsV, ⟨cV, tV, hpreV, hcV⟩, -, reV⟩ := ihV cs v _ heqV
          subst hpreV
          subst hcsV
          have hwall1 : ∀ y ∈ r.takeWhile isJsonWs, isJsonWs y = true :=
            fun y hy => List.mem_takeWhile_imp hy
          have hdec1 : r = r.takeWhile isJsonWs ++ (']' :: r2) := by
            conv_lhs => rw [← List.takeWhile_append_dropWhile (p := isJsonWs) (l := r)]
            rw [show List.dropWhile isJsonWs r = ']' :: r2 from heqC]
          refine ⟨(cV :: tV) ++ (r.takeWhile isJsonWs ++ [']']), ?_,
            ⟨cV, _, rfl, hcV⟩,
            ⟨(r.takeWhile isJsonWs).reverse ++ (tV.reverse ++ [cV]), ?_⟩, ?_⟩
          · conv_lhs => rw [hdec1]
            simp
          · simp [List.reverse_append]
          · intro σ m hσ hm
            obtain ⟨m', rfl⟩ : ∃ m', m = m' + 1 := ⟨m - 1, by omega⟩
            have hmV : (cV :: tV).length + 1 ≤ m' := by
              simp only [List.length_cons, List.length_append] at hm ⊢
              omega
            have hσ1 : safeTail (r.takeWhile isJsonWs ++ ']' :: σ) = true :=
              safeTail_of_ws_cons _ hwall1 (by decide)
            have hV' := reV (r.takeWhile isJsonWs ++ ']' :: σ) m' hσ1 hmV
            have hs1 : skipWs (r.takeWhile isJsonWs ++ ']' :: σ) = ']' :: σ :=
              skipWs_ws_cons _ hwall1 (by decide)
            unfold parseElems
            simp only [List.cons_append, List.append_assoc, List.singleton_append, List.nil_append]
            simp only [List.cons_append, List.append_assoc] at hV'
            rw [hV']
            simp [hs1]
        · exact nomatch hp
      · exact nomatch hp
    · intro cs ms rest hp
      unfold parseMembers at hp
      split at hp
      · rename_i r0
        split at hp
        · rename_i kk r1 heqS
          split at hp
          · rename_i r2 heqColon
            split at hp
            · rename_i v r3 heqV
              split at hp
              · -- comma: further members
                rename_i r4 heqC
                split at hp
                · rename_i ms' r5 heqM2
                  simp only [Option.some.injEq, Prod.mk.injEq] at hp
                  obtain ⟨rfl, rfl⟩ := hp
                  obtain ⟨preS, hcsS, -, ⟨dsS, hrevS⟩, hσS⟩ :=
                    parseStrBody_split r0 kk _ heqS
                  subst hcsS
                  obtain ⟨preV, hV, ⟨cV, tV, hpreV, hcV⟩, -, reV⟩ :=
                    ihV (skipWs r2) v _ heqV
                  subst hpreV
                  obtain ⟨preM2, hM2, ⟨tM2, hpreM2⟩, ⟨dsM2, hrevM2⟩, reM2⟩ :=
                    ihM (skipWs r4) ms' _ heqM2
                  subst hpreM2
                  have hwall1 : ∀ y ∈ r1.takeWhile isJsonWs, isJsonWs y = true :=
                    fun y hy => List.mem_takeWhile_imp hy
                  have hwall2 : ∀ y ∈ r2.takeWhile isJsonWs, isJsonWs y = true :=
                    fun y hy => List.mem_takeWhile_imp hy
                  have hwall3 : ∀ y ∈ r3.takeWhile isJsonWs, isJsonWs y = true :=
                    fun y hy => List.mem_takeWhile_imp hy
                  have hwall4 : ∀ y ∈ r4.takeWhile isJsonWs, isJsonWs y = true :=
                    fun y hy => List.mem_takeWhile_imp hy
                  have hdec1 : r1 = r1.takeWhile isJsonWs ++ (':' :: r2) := by
                    conv_lhs => rw [← List.takeWhile_append_dropWhile (p := isJsonWs) (l := r1)]
                    rw [show List.dropWhile isJsonWs r1 = ':' :: r2 from heqColon]
                  have hdec2 : r2 = r2.takeWhile isJsonWs ++ ((cV :: tV) ++ r3) := by
                    conv_lhs => rw [← List.takeWhile_append_dropWhile (p := isJsonWs) (l := r2)]
                    rw [show List.dropWhile isJsonWs r2 = (cV :: tV) ++ r3 from hV]
                  have hdec3 : r3 = r3.takeWhile isJsonWs ++ (',' :: r4) := by
                    conv_lhs => rw [← List.takeWhile_append_dropWhile (p := isJsonWs) (l := r3)]
                    rw [show List.dropWhile isJsonWs r3 = ',' :: r4 from heqC]
                  have hdec4 : r4 = r4.takeWhile isJsonWs ++ (('"' :: tM2) ++ r5) := by
                    conv_lhs => rw [← List.takeWhile_append_dropWhile (p := isJsonWs) (l := r4)]
                    rw [show List.dropWhile isJsonWs r4 = ('"' :: tM2) ++ r5 from hM2]
                  refine ⟨'"' :: (preS ++ (r1.takeWhile isJsonWs
                      ++ (':' :: (r2.takeWhile isJsonWs
                        ++ ((cV :: tV) ++ (r3.takeWhile isJsonWs
                          ++ (',' :: (r4.takeWhile isJsonWs ++ ('"' :: tM2))))))))), ?_,
                    ⟨_, rfl⟩,
                    ⟨dsM2 ++ ((r4.takeWhile isJsonWs).reverse
                      ++ (',' :: ((r3.takeWhile isJsonWs).reverse
                        ++ (tV.reverse ++ (cV :: ((r2.takeWhile isJsonWs).reverse
                          ++ (':' :: ((r1.takeWhile isJsonWs).reverse
                            ++ (preS.reverse ++ ['"']))))))))), ?_⟩, ?_⟩
                  · conv_lhs => rw [hdec1, hdec2, hdec3, hdec4]
                    simp
                  · simp [List.reverse_append, hrevM2]
                  · intro σ m hσ hm
                    obtain ⟨m', rfl⟩ : ∃ m', m = m' + 1 := ⟨m - 1, by omega⟩
                    have hmV : (cV :: tV).length + 1 ≤ m' := by
                      simp only [List.length_cons, List.length_append] at hm ⊢
                      omega
                    have hmM : ('"' :: tM2).length + 1 ≤ m' := by
                      simp only [List.length_cons, List.length_append] at hm ⊢
                      omega
                    have hσV : safeTail (r3.takeWhile isJsonWs
                        ++ ',' :: (r4.takeWhile isJsonWs ++ ('"' :: (tM2 ++ σ)))) = true :=
                      safeTail_of_ws_cons _ hwall3 (by decide)
                    have hV' := reV (r3.takeWhile isJsonWs
                        ++ ',' :: (r4.takeWhile isJsonWs ++ ('"' :: (tM2 ++ σ)))) m' hσV hmV
                    have hs1 : skipWs (r1.takeWhile isJsonWs
                        ++ ':' :: (r2.takeWhile isJsonWs
                          ++ (cV :: (tV ++ (r3.takeWhile isJsonWs
                            ++ ',' :: (r4.takeWhile isJsonWs ++ ('"' :: (tM2 ++ σ))))))))
                        = ':' :: (r2.takeWhile isJsonWs
                          ++ (cV :: (tV ++ (r3.takeWhile isJsonWs
                            ++ ',' :: (r4.takeWhile isJsonWs ++ ('"' :: (tM2 ++ σ))))))) :=
                      skipWs_ws_cons _ hwall1 (by decide)
                    have hs2 : skipWs (r2.takeWhile isJsonWs
                        ++ (cV :: (tV ++ (r3.takeWhile isJsonWs
                          ++ ',' :: (r4.takeWhile isJsonWs ++ ('"' :: (tM2 ++ σ)))))))
                        = cV :: (tV ++ (r3.takeWhile isJsonWs
                          ++ ',' :: (r4.takeWhile isJsonWs ++ ('"' :: (tM2 ++ σ))))) :=
                      skipWs_ws_cons _ hwall2 (valStart_not_jsonWs hcV)
                    have hs3 : skipWs (r3.takeWhile isJsonWs
                        ++ ',' :: (r4.takeWhile isJsonWs ++ ('"' :: (tM2 ++ σ))))
                        = ',' :: (r4.takeWhile isJsonWs ++ ('"' :: (tM2 ++ σ))) :=
                      skipWs_ws_cons _ hwall3 (by decide)
                    have hs4 : skipWs (r4.takeWhile isJsonWs ++ ('"' :: (tM2 ++ σ)))
                        = '"' :: (tM2 ++ σ) :=
                      skipWs_ws_cons _ hwall4 (by decide)
                    have hM' : parseMembers m' ('"' :: (tM2 ++ σ)) = some (ms', σ) := by
                      have := reM2 σ m' hσ hmM
                      simpa using this
                    unfold parseMembers
                    simp only [List.cons_append, List.append_assoc, List.singleton_append,
                      List.nil_append]
                    rw [hσS]
                    simp only [List.cons_append, List.append_assoc] at hV' hs1 hs2 hs3 hs4
                    simp [hs1, hs2, hV', hs3, hs4, hM']
                · exact nomatch hp
              · -- closing brace: final member
                rename_i r4 heqC
                simp only [Option.some.injEq, Prod.mk.injEq] at hp
                obtain ⟨rfl, rfl⟩ := hp
                obtain ⟨preS, hcsS, -, ⟨dsS, hrevS⟩, hσS⟩ :=
                  parseStrBody_split r0 kk _ heqS
                subst hcsS
                obtain ⟨preV, hV, ⟨cV, tV, hpreV, hcV⟩, -, reV⟩ :=
                  ihV (skipWs r2) v _ heqV
                subst hpreV
                have hwall1 : ∀ y ∈ r1.takeWhile isJsonWs, isJsonWs y = true :=
                  fun y hy => List.mem_takeWhile_imp hy
                have hwall2 : ∀ y ∈ r2.takeWhile isJsonWs, isJsonWs y = true :=
                  fun y hy => List.mem_takeWhile_imp hy
                have hwall3 : ∀ y ∈ r3.takeWhile isJsonWs, isJsonWs y = true :=
                  fun y hy => List.mem_takeWhile_imp hy
                have hdec1 : r1 = r1.takeWhile isJsonWs ++ (':' :: r2) := by
                  conv_lhs => rw [← List.takeWhile_append_dropWhile (p := isJsonWs) (l := r1)]
                  rw [show List.dropWhile isJsonWs r1 = ':' :: r2 from heqColon]
                have hdec2 : r2 = r2.takeWhile isJsonWs ++ ((cV :: tV) ++ r3) := by
                  conv_lhs => rw [← List.takeWhile_append_dropWhile (p := isJsonWs) (l := r2)]
                  rw [show List.dropWhile isJsonWs r2 = (cV :: tV) ++ r3 from hV]
                have hdec3 : r3 = r3.takeWhile isJsonWs ++ ('}' :: r4) := by
                  conv_lhs => rw [← List.takeWhile_append_dropWhile (p := isJsonWs) (l := r3)]
                  rw [show List.dropWhile isJsonWs r3 = '}' :: r4 from heqC]
                refine ⟨'"' :: (preS ++ (r1.takeWhile isJsonWs
                    ++ (':' :: (r2.takeWhile isJsonWs
                      ++ ((cV :: tV) ++ (r3.takeWhile isJsonWs ++ ['}'])))))), ?_,
                  ⟨_, rfl⟩,
                  ⟨(r3.takeWhile isJsonWs).reverse
                    ++ (tV.reverse ++ (cV :: ((r2.takeWhile isJsonWs).reverse
                      ++ (':' :: ((r1.takeWhile isJsonWs).reverse
                        ++ (preS.reverse ++ ['"'])))))), ?_⟩, ?_⟩
                · conv_lhs => rw [hdec1, hdec2, hdec3]
                  simp
                · simp [List.reverse_append]
                · intro σ m hσ hm
                  obtain ⟨m', rfl⟩ : ∃ m', m = m' + 1 := ⟨m - 1, by omega⟩
                  have hmV : (cV :: tV).length + 1 ≤ m' := by
                    simp only [List.length_cons, List.length_append] at hm ⊢
                    omega
                  have hσV : safeTail (r3.takeWhile isJsonWs ++ '}' :: σ) = true :=
                    safeTail_of_ws_cons _ hwall3 (by decide)
                  have hV' := reV (r3.takeWhile isJsonWs ++ '}' :: σ) m' hσV hmV
                  have hs1 : skipWs (r1.takeWhile isJsonWs
                      ++ ':' :: (r2.takeWhile isJsonWs
                        ++ (cV :: (tV ++ (r3.takeWhile isJsonWs ++ '}' :: σ)))))
                      = ':' :: (r2.takeWhile isJsonWs
                        ++ (cV :: (tV ++ (r3.takeWhile isJsonWs ++ '}' :: σ)))) :=
                    skipWs_ws_cons _ hwall1 (by decide)
                  have hs2 : skipWs (r2.takeWhile isJsonWs
                      ++ (cV :: (tV ++ (r3.takeWhile isJsonWs ++ '}' :: σ))))
                      = cV :: (tV ++ (r3.takeWhile isJsonWs ++ '}' :: σ)) :=
                    skipWs_ws_cons _ hwall2 (valStart_not_jsonWs hcV)
                  have hs3 : skipWs (r3.takeWhile isJsonWs ++ '}' :: σ) = '}' :: σ :=
                    skipWs_ws_cons _ hwall3 (by decide)
                  unfold parseMembers
                  simp only [List.cons_append, List.append_assoc, List.singleton_append,
                    List.nil_append]
                  rw [hσS]
                  simp only [List.cons_append, List.append_assoc] at hV' hs1 hs2 hs3
                  simp [hs1, hs2, hV', hs3]
              · exact nomatch hp
            · exact nomatch hp
          · exact nomatch hp
        · exact nomatch hp
      · exact nomatch hp

theorem pyStrip_no_ws_ends {l : List Char}
    (hhead : ∃ c t, l = c :: t ∧ isPyWs c = false)
    (hlast : ∃ d s, l.reverse = d :: s ∧ isPyWs d = false) :
    pyStrip l = l := by
  obtain ⟨c, t, rfl, hc⟩ := hhead
  obtain ⟨d, s, hrev, hd⟩ := hlast
  unfold pyStrip
  rw [dropWhile_cons_neg _ hc, hrev, dropWhile_cons_neg _ hd, ← hrev,
    List.reverse_reverse]

/-- C5: fence invariance of reply normalization — for every JSON text `J`
(one that `json.loads` accepts), running the reply `` ```json J``` ``
through the endpoint's normalization (strip, fence removal, parse) yields
exactly the same parsed structure as parsing the unwrapped reply `J`
directly. -/
theorem C5_fence_invariance :
    ∀ (J : List Char) (v : Json),
      jsonParse J = some v →
      jsonParse (stripFence (pyStrip (fenceTag ++ J ++ closeFence))) = some v
      ∧ jsonParse (stripFence (pyStrip (fenceTag ++ J ++ closeFence))) = jsonParse J := by
  intro J v hJ
  have hJ0 := hJ
  unfold jsonParse at hJ
  split at hJ
  · rename_i v0 rest heqV
    split at hJ
    · rename_i hrest
      obtain rfl : v0 = v := by cases hJ; rfl
      have hrestAll : ∀ x ∈ rest, isJsonWs x = true := List.dropWhile_eq_nil_iff.mp hrest
      obtain ⟨pre, hbody, ⟨c, t, hpre, hc⟩, ⟨d, ds, hrev, hd⟩, re⟩ :=
        (parse_split (J.length + 1)).1 (skipWs J) v0 rest heqV
      have hJdec : J = J.takeWhile isJsonWs ++ (pre ++ rest) := by
        conv_lhs => rw [← List.takeWhile_append_dropWhile (p := isJsonWs) (l := J)]
        rw [show List.dropWhile isJsonWs J = pre ++ rest from hbody]
      have hstrip : pyStrip J = pre := by
        have hd1 : ∀ x ∈ J.takeWhile isJsonWs, isPyWs x = true :=
          fun x hx => isJsonWs_isPyWs (List.mem_takeWhile_imp hx)
        have hd2 : ∀ x ∈ rest, isPyWs x = true :=
          fun x hx => isJsonWs_isPyWs (hrestAll x hx)
        have := pyStrip_decompose (a := J.takeWhile isJsonWs) (m := pre) (b := rest)
          hd1 hd2 ⟨c, t, hpre, valStart_not_pyWs hc⟩ ⟨d, ds, hrev, hd⟩
        rw [hJdec, ← List.append_assoc]
        exact this
      have hWhead : fenceTag ++ J ++ closeFence
          = '\x60' :: ("``json".toList ++ J ++ closeFence) := rfl
      have hWrev : (fenceTag ++ J ++ closeFence).reverse
          = '\x60' :: (['\x60', '\x60'] ++ (J.reverse ++ fenceTag.reverse)) := by
        rw [List.reverse_append, List.reverse_append]
        rfl
      have hWstrip : pyStrip (fenceTag ++ J ++ closeFence) = fenceTag ++ J ++ closeFence :=
        pyStrip_no_ws_ends ⟨'\x60', _, hWhead, by decide⟩ ⟨'\x60', _, hWrev, by decide⟩
      have hSF : stripFence (fenceTag ++ J ++ closeFence) = pyStrip J := by
        unfold stripFence
        rw [if_pos ?hpre0]
        case hpre0 =>
          rw [List.append_assoc, List.isPrefixOf_iff_prefix]
          exact List.prefix_append _ _
        rw [List.append_assoc, List.drop_left]
        have h7 : fenceTag.length = 7 := rfl
        have h3 : closeFence.length = 3 := rfl
        have hlen : (fenceTag ++ (J ++ closeFence)).length - closeFence.length
            - fenceTag.length = J.length := by
          rw [List.length_append, List.length_append, h7, h3]
          omega
        rw [hlen, List.take_left]
      have hfinal : jsonParse pre = some v0 := by
        unfold jsonParse
        have hskip : skipWs pre = pre := by
          rw [hpre]
          exact dropWhile_cons_neg _ (valStart_not_jsonWs hc)
        rw [hskip]
        have hre := re [] (pre.length + 1) (by simp [safeTail]) le_rfl
        rw [List.append_nil] at hre
        rw [hre]
        simp [skipWs]
      refine ⟨?_, ?_⟩
      · rw [hWstrip, hSF, hstrip]
        exact hfinal
      · rw [hWstrip, hSF, hstrip, hfinal, hJ0]
    · exact nomatch hJ
  · exact nomatch hJ

/-- Concrete instance of `C5_fence_invariance` on the reply
`` ```json{"a": 1}``` ``. -/
theorem C5_witness :
    jsonParse (stripFence (pyStrip
        (fenceTag ++ "\x7b\"a\": 1\x7d".toList ++ closeFence)))
      = some (.obj [("a".toList, .num ['1'])]) :=
  (C5_fence_invariance "\x7b\"a\": 1\x7d".toList (.obj [("a".toList, .num ['1'])]) rfl).1
